import Mathlib

/-!
Verification development for the reporting tier of zktraffic
(`zktraffic/cli/zk.py`): the request/reply correlation engines
(`DefaultPrinter`, `CountPrinter`, `LatencyPrinter`), the per-client
pending-request table (`Requests`) and the summary logic.

Embedding conventions: Python dicts (`defaultdict`) become association
lists, float timestamps and latencies become rationals, and each call to
`self.write(*msgs)` / `sys.stdout.write` becomes one element appended to
an explicit `out` field of the engine state.  The background consumption
loops are embedded as one step function per dequeued element plus a fold
over the queued elements.
-/

/-- Modelled from the spec: `OpCodes.CLOSE` comes from
`zktraffic.base.zookeeper`, which is not part of the sources here; the
spec only uses it as the distinguished opcode of the structural "close"
operation, which never receives a reply.  Its concrete value is
irrelevant to every property below; we use ZooKeeper's wire value. -/
def OpCodes.CLOSE : Int := -11

/-- A decoded protocol message (request, reply or watch event) as the
engines see it: fields `client`, `xid`, `opcode`, `timestamp`, `path`
and `name` are the only attributes `zk.py` reads. -/
structure Msg where
  client : String
  xid : Int
  opcode : Int
  timestamp : ℚ
  path : String
  name : String
deriving DecidableEq

/-- `Requests.requests_by_xid`: a `defaultdict(list)` keyed by xid,
embedded as an association list. -/
abbrev Requests := List (Int × List Msg)

/-- `Requests.add`: `self.requests_by_xid[req.xid].append(req)`. -/
def Requests.add (t : Requests) (req : Msg) : Requests :=
  match t with
  | [] => [(req.xid, [req])]
  | (x, l) :: rest =>
      if x = req.xid then (x, l ++ [req]) :: rest
      else (x, l) :: Requests.add rest req

/-- `Requests.pop`:
`self.requests_by_xid.pop(xid) if xid in self.requests_by_xid else []`;
returns the popped list together with the table that remains. -/
def Requests.pop (t : Requests) (xid : Int) : List Msg × Requests :=
  match t with
  | [] => ([], [])
  | (x, l) :: rest =>
      if x = xid then (l, rest)
      else
        let p := Requests.pop rest xid
        (p.1, (x, l) :: p.2)

/-- Observation function: the list buffered under `xid` (`[]` when the
key is absent — `add` only ever stores non-empty lists). -/
def Requests.lookupList (t : Requests) (xid : Int) : List Msg :=
  match t with
  | [] => []
  | (x, l) :: rest => if x = xid then l else Requests.lookupList rest xid

/-- Well-formedness of the embedding: a Python dict never holds two
entries with the same key. -/
def Requests.wf (t : Requests) : Prop := (t.map Prod.fst).Nodup

/-- `self._requests_by_client`: a `defaultdict(Requests)` keyed by the
client identity. -/
abbrev ClientTable := List (String × Requests)

/-- `self._requests_by_client[req.client].add(req)`. -/
def ClientTable.add (t : ClientTable) (req : Msg) : ClientTable :=
  match t with
  | [] => [(req.client, Requests.add [] req)]
  | (c, r) :: rest =>
      if c = req.client then (c, r.add req) :: rest
      else (c, r) :: ClientTable.add rest req

/-- `self._requests_by_client[rep.client].pop(rep.xid)`.  The
`defaultdict` access creates an empty `Requests` for an unseen client;
the embedding mirrors that. -/
def ClientTable.pop (t : ClientTable) (client : String) (xid : Int) :
    List Msg × ClientTable :=
  match t with
  | [] => ([], [(client, ([] : Requests))])
  | (c, r) :: rest =>
      if c = client then
        let p := r.pop xid
        (p.1, (c, p.2) :: rest)
      else
        let q := ClientTable.pop rest client xid
        (q.1, (c, r) :: q.2)

/-- Observation function for the nested table. -/
def ClientTable.lookupList (t : ClientTable) (client : String) (xid : Int) :
    List Msg :=
  match t with
  | [] => []
  | (c, r) :: rest =>
      if c = client then r.lookupList xid
      else ClientTable.lookupList rest client xid

/-- Well-formedness: distinct client keys, each inner dict well formed. -/
def ClientTable.wf (t : ClientTable) : Prop :=
  (t.map Prod.fst).Nodup ∧ ∀ e ∈ t, Requests.wf e.2

/-- The key test used throughout: does `m` carry this (client, xid)? -/
def hasKey (client : String) (xid : Int) (m : Msg) : Bool :=
  m.client == client && m.xid == xid

/-- The state of `DefaultPrinter` (the Paired engine): the pending
table, the reply deque, the loopback flag, and the groups written so far
(each `self.write(*msgs)` call appends its argument list to `out`). -/
structure DefaultPrinter where
  loopback : Bool
  requests_by_client : ClientTable
  replies : List Msg
  out : List (List Msg)
deriving DecidableEq

/-- `DefaultPrinter.__init__`. -/
def DefaultPrinter.init (loopback : Bool) : DefaultPrinter :=
  { loopback := loopback, requests_by_client := [], replies := [], out := [] }

/-- `DefaultPrinter.request_handler`: a close request is written
immediately, anything else is buffered in the pending table. -/
def DefaultPrinter.request_handler (p : DefaultPrinter) (req : Msg) :
    DefaultPrinter :=
  if req.opcode = OpCodes.CLOSE then { p with out := p.out ++ [[req]] }
  else { p with requests_by_client := p.requests_by_client.add req }

/-- `DefaultPrinter.reply_handler`: enqueue the reply. -/
def DefaultPrinter.reply_handler (p : DefaultPrinter) (rep : Msg) :
    DefaultPrinter :=
  { p with replies := p.replies ++ [rep] }

/-- `DefaultPrinter.event_handler`: write the event immediately. -/
def DefaultPrinter.event_handler (p : DefaultPrinter) (evt : Msg) :
    DefaultPrinter :=
  { p with out := p.out ++ [[evt]] }

/-- One iteration of `DefaultPrinter.run` acting on a dequeued reply:
pop the pending list for `(rep.client, rep.xid)`; if it is empty the
reply is dropped, otherwise the group `reqs[0:1] + [rep]` (loopback) or
`reqs + [rep]` is written. -/
def DefaultPrinter.runStep (p : DefaultPrinter) (rep : Msg) : DefaultPrinter :=
  let pr := p.requests_by_client.pop rep.client rep.xid
  if pr.1 = [] then { p with requests_by_client := pr.2 }
  else
    { p with
        requests_by_client := pr.2,
        out := p.out ++
          [(if p.loopback then pr.1.take 1 else pr.1) ++ [rep]] }

/-- `DefaultPrinter.run`, draining the replies queued so far. -/
def DefaultPrinter.runAll (p : DefaultPrinter) : DefaultPrinter :=
  p.replies.foldl DefaultPrinter.runStep { p with replies := [] }

/-- A capture callback, as dispatched by the sniffer to the three
handler entry points. -/
inductive Cb where
  | req (m : Msg)
  | rep (m : Msg)
  | evt (m : Msg)
deriving DecidableEq

/-- Dispatch one callback to the matching `DefaultPrinter` handler. -/
def DefaultPrinter.handle (p : DefaultPrinter) : Cb → DefaultPrinter
  | .req m => p.request_handler m
  | .rep m => p.reply_handler m
  | .evt m => p.event_handler m

/-- Feed a whole callback sequence to the handlers. -/
def DefaultPrinter.handleAll (p : DefaultPrinter) (cbs : List Cb) :
    DefaultPrinter :=
  cbs.foldl DefaultPrinter.handle p

/-- Modelled from the spec: `parent_path` is a method of the message
classes in `zktraffic.base`, not part of the sources here.  Per §3 it
"derives a truncated path prefix of `depth` components". -/
def parent_path (p : String) (depth : Nat) : String :=
  "/" ++ String.intercalate "/" (((p.splitOn "/").filter (fun s => s ≠ "")).take depth)

/-- The validated `--group-by` values (`validate_group_by` rejects
everything else before an engine is built). -/
inductive GroupBy where
  | path
  | type
  | client
deriving DecidableEq

/-- `key_of(msg, group_by, depth)`: the grouping projection. -/
def key_of (msg : Msg) (group_by : GroupBy) (depth : Nat) : String :=
  match group_by with
  | .path => if depth = 0 then msg.path else parent_path msg.path depth
  | .type => msg.name
  | .client => msg.client

/-- The validated `--sort-by` values. -/
inductive SortBy where
  | avg
  | p95
  | p99
deriving DecidableEq

/-- Modelled from the spec: `percentile` comes from
`zktraffic.stats.util`, which is not part of the sources here.  Per §4.1
the contract is the nearest-rank percentile: for ascending-sorted
non-empty `samples` and `p ∈ [0,1]`, the value at rank `⌈p * n⌉`,
1-indexed and clamped to `[1, n]`, with no interpolation. -/
def percentile (samples : List ℚ) (p : ℚ) : ℚ :=
  let n := samples.length
  let rank := min n (max 1 (Nat.ceil (p * (n : ℚ))))
  samples.getD (rank - 1) 0

/-- The state of `CountPrinter`: the sample budget, grouping
configuration, the tally map (`defaultdict(int)`) and the accepted
count `seen`; `out` holds the summary lines printed by `run`. -/
structure CountPrinter where
  count : Nat
  group_by : GroupBy
  aggregation_depth : Nat
  loopback : Bool
  seen : Nat
  requests : List (String × Nat)
  out : List (String × Nat)
deriving DecidableEq

/-- `CountPrinter.__init__`. -/
def CountPrinter.init (count : Nat) (group_by : GroupBy) (loopback : Bool)
    (aggregation_depth : Nat) : CountPrinter :=
  { count := count, group_by := group_by, aggregation_depth := aggregation_depth,
    loopback := loopback, seen := 0, requests := [], out := [] }

/-- `self.requests[key] += 1` on a `defaultdict(int)`. -/
def bumpTally (t : List (String × Nat)) (key : String) : List (String × Nat) :=
  match t with
  | [] => [(key, 1)]
  | (k, n) :: rest =>
      if k = key then (k, n + 1) :: rest
      else (k, n) :: bumpTally rest key

/-- `CountPrinter._add`: ignore the message once `seen` reached the
budget, otherwise tally its grouping key and bump `seen`. -/
def CountPrinter._add (p : CountPrinter) (msg : Msg) : CountPrinter :=
  if p.count ≤ p.seen then p
  else
    { p with
        requests := bumpTally p.requests (key_of msg p.group_by p.aggregation_depth),
        seen := p.seen + 1 }

/-- Dispatch one callback to the `CountPrinter` handlers:
`request_handler` and `event_handler` call `_add`, `reply_handler` is a
pass. -/
def CountPrinter.handle (p : CountPrinter) : Cb → CountPrinter
  | .req m => p._add m
  | .rep _ => p
  | .evt m => p._add m

/-- Feed a whole callback sequence to the `CountPrinter` handlers. -/
def CountPrinter.handleAll (p : CountPrinter) (cbs : List Cb) : CountPrinter :=
  cbs.foldl CountPrinter.handle p

/-- The summary computed at the end of `CountPrinter.run`:
`sorted(self.requests.items(), key=item[1], reverse=True)` — tallies in
descending order, stable on ties. -/
def CountPrinter.summary (p : CountPrinter) : List (String × Nat) :=
  p.requests.mergeSort (fun a b => decide (b.2 ≤ a.2))

/-- The tail of `CountPrinter.run` once the spin loop has exited. -/
def CountPrinter.runReport (p : CountPrinter) : CountPrinter :=
  { p with out := p.out ++ p.summary }

/-- `CountPrinter` does not override `BasePrinter.cancel`, which is a
pass. -/
def CountPrinter.cancel (p : CountPrinter) : CountPrinter := p

/-- The state of `LatencyPrinter`: configuration, the matched-pair
count `_seen`, the per-group latency samples, the pending table, the
reply deque and the `_report_done` guard; `out` records each summary
table printed by `report` (one element per `tabulate` write). -/
structure LatencyPrinter where
  count : Nat
  group_by : GroupBy
  aggregation_depth : Nat
  sort_by : SortBy
  loopback : Bool
  seen : Nat
  latencies_by_group : List (String × List ℚ)
  requests_by_client : ClientTable
  replies : List Msg
  report_done : Bool
  out : List (List (String × ℚ × ℚ × ℚ))
deriving DecidableEq

/-- `LatencyPrinter.__init__`. -/
def LatencyPrinter.init (count : Nat) (group_by : GroupBy) (loopback : Bool)
    (aggregation_depth : Nat) (sort_by : SortBy) : LatencyPrinter :=
  { count := count, group_by := group_by, aggregation_depth := aggregation_depth,
    sort_by := sort_by, loopback := loopback, seen := 0,
    latencies_by_group := [], requests_by_client := [], replies := [],
    report_done := false, out := [] }

/-- `self._latencies_by_group[key].append(latency)` on a
`defaultdict(list)`. -/
def appendLatency (t : List (String × List ℚ)) (key : String) (latency : ℚ) :
    List (String × List ℚ) :=
  match t with
  | [] => [(key, [latency])]
  | (k, l) :: rest =>
      if k = key then (k, l ++ [latency]) :: rest
      else (k, l) :: appendLatency rest key latency

/-- `LatencyPrinter.request_handler`: close requests are ignored (no
reply will come), everything else is buffered. -/
def LatencyPrinter.request_handler (p : LatencyPrinter) (req : Msg) :
    LatencyPrinter :=
  if req.opcode ≠ OpCodes.CLOSE then
    { p with requests_by_client := p.requests_by_client.add req }
  else p

/-- `LatencyPrinter.reply_handler`: enqueue the reply. -/
def LatencyPrinter.reply_handler (p : LatencyPrinter) (rep : Msg) :
    LatencyPrinter :=
  { p with replies := p.replies ++ [rep] }

/-- `LatencyPrinter.event_handler` is a pass. -/
def LatencyPrinter.event_handler (p : LatencyPrinter) (_evt : Msg) :
    LatencyPrinter :=
  p

/-- One iteration of `LatencyPrinter.wait_for_requests` acting on a
dequeued reply: pop the pending list; on a match take its first request
`reqs[0]`, record `rep.timestamp - req.timestamp` under the request's
grouping key and bump `_seen`; an unmatched reply is dropped. -/
def LatencyPrinter.waitStep (p : LatencyPrinter) (rep : Msg) : LatencyPrinter :=
  let pr := p.requests_by_client.pop rep.client rep.xid
  match pr.1 with
  | [] => { p with requests_by_client := pr.2 }
  | req :: _ =>
      { p with
          requests_by_client := pr.2,
          latencies_by_group :=
            appendLatency p.latencies_by_group
              (key_of req p.group_by p.aggregation_depth)
              (rep.timestamp - req.timestamp),
          seen := p.seen + 1 }

/-- The per-group figures computed by `LatencyPrinter.report`:
`avg = sum(latencies)/len(latencies)`, and `p95`/`p99` of the
ascending-sorted samples. -/
def groupResult (latencies : List ℚ) : ℚ × ℚ × ℚ :=
  let avg := latencies.sum / (latencies.length : ℚ)
  let s := latencies.mergeSort (fun a b => decide (a ≤ b))
  (avg, percentile s (95 / 100), percentile s (99 / 100))

/-- Projection of the metric chosen by `--sort-by`. -/
def SortBy.metric (sort_by : SortBy) (r : ℚ × ℚ × ℚ) : ℚ :=
  match sort_by with
  | .avg => r.1
  | .p95 => r.2.1
  | .p99 => r.2.2

/-- The rows of the table printed by `LatencyPrinter.report`: per-group
results sorted descending by the configured metric (`reverse=True`,
stable on ties). -/
def LatencyPrinter.summaryTable (p : LatencyPrinter) :
    List (String × ℚ × ℚ × ℚ) :=
  (p.latencies_by_group.map (fun kl => (kl.1, groupResult kl.2))).mergeSort
    (fun a b => decide (p.sort_by.metric b.2 ≤ p.sort_by.metric a.2))

/-- `LatencyPrinter.report`: guarded by `_report_done`; forces
`wait_for_requests` to finish by raising `_seen` to `_count`, then
prints the summary table once. -/
def LatencyPrinter.report (p : LatencyPrinter) : LatencyPrinter :=
  if p.report_done then p
  else
    { p with
        seen := if p.seen < p.count then p.count else p.seen,
        report_done := true,
        out := p.out ++ [p.summaryTable] }

/-- `LatencyPrinter.cancel` just calls `report`. -/
def LatencyPrinter.cancel (p : LatencyPrinter) : LatencyPrinter :=
  p.report

/-- `loopback = options.iface in ["lo", "lo0"]` (line 425 of `zk.py`):
how `main` decides the loopback-dedupe flag passed to every engine. -/
def mainLoopback (iface : String) : Bool :=
  ["lo", "lo0"].contains iface

theorem Requests.lookupList_add (t : Requests) (r : Msg) (x : Int) :
    (t.add r).lookupList x =
      if x = r.xid then t.lookupList x ++ [r] else t.lookupList x := by
  induction t with
  | nil =>
      by_cases h : x = r.xid
      · simp [Requests.add, Requests.lookupList, h]
      · simp [Requests.add, Requests.lookupList, h, Ne.symm h]
  | cons e rest ih =>
      obtain ⟨x0, l0⟩ := e
      by_cases h0 : x0 = r.xid
      · by_cases h : x0 = x
        · simp [Requests.add, Requests.lookupList, h0, h, h ▸ h0]
        · have hxr : ¬x = r.xid := fun hh => h (h0.trans hh.symm)
          have hrx : ¬r.xid = x := h0 ▸ h
          simp [Requests.add, Requests.lookupList, h0, h, hxr, hrx]
      · by_cases h : x0 = x
        · have hxr : ¬x = r.xid := fun hh => h0 (h.trans hh)
          simp [Requests.add, Requests.lookupList, h0, h, hxr]
        · simp [Requests.add, Requests.lookupList, h0, h, ih]

theorem Requests.pop_fst (t : Requests) (x : Int) :
    (t.pop x).1 = t.lookupList x := by
  induction t with
  | nil => simp [Requests.pop, Requests.lookupList]
  | cons e rest ih =>
      obtain ⟨x0, l0⟩ := e
      by_cases h : x0 = x <;> simp [Requests.pop, Requests.lookupList, h, ih]

theorem Requests.lookupList_eq_nil (t : Requests) (x : Int)
    (h : x ∉ t.map Prod.fst) : t.lookupList x = [] := by
  induction t with
  | nil => simp [Requests.lookupList]
  | cons e rest ih =>
      obtain ⟨x0, l0⟩ := e
      simp only [List.map_cons, List.mem_cons] at h
      push_neg at h
      have h1 : ¬x0 = x := fun hh => h.1 hh.symm
      simp [Requests.lookupList, h1, ih h.2]

theorem Requests.keys_add_subset (t : Requests) (r : Msg) (y : Int)
    (h : y ∈ (t.add r).map Prod.fst) : y ∈ t.map Prod.fst ∨ y = r.xid := by
  induction t with
  | nil =>
      simp [Requests.add] at h
      exact Or.inr h
  | cons e rest ih =>
      obtain ⟨x0, l0⟩ := e
      by_cases h0 : x0 = r.xid
      · simp only [Requests.add, if_pos h0, List.map_cons, List.mem_cons] at h
        exact Or.inl (by simpa using h)
      · simp only [Requests.add, if_neg h0, List.map_cons, List.mem_cons] at h
        rcases h with h | h
        · exact Or.inl (by simp [h])
        · rcases ih h with h1 | h1
          · exact Or.inl (by simp [h1])
          · exact Or.inr h1

theorem Requests.wf_add (t : Requests) (r : Msg) (h : t.wf) : (t.add r).wf := by
  induction t with
  | nil => simp [Requests.add, Requests.wf]
  | cons e rest ih =>
      obtain ⟨x0, l0⟩ := e
      simp only [Requests.wf, List.map_cons, List.nodup_cons] at h
      by_cases h0 : x0 = r.xid
      · simp only [Requests.add, if_pos h0]
        simpa [Requests.wf] using h
      · have hrest := ih h.2
        simp only [Requests.add, if_neg h0, Requests.wf, List.map_cons,
          List.nodup_cons]
        refine ⟨?_, hrest⟩
        intro hmem
        rcases Requests.keys_add_subset rest r x0 hmem with h1 | h1
        · exact h.1 h1
        · exact h0 h1

theorem Requests.keys_pop_sublist (t : Requests) (x : Int) :
    ((t.pop x).2.map Prod.fst).Sublist (t.map Prod.fst) := by
  induction t with
  | nil => simp [Requests.pop]
  | cons e rest ih =>
      obtain ⟨x0, l0⟩ := e
      by_cases h : x0 = x
      · simp [Requests.pop, h]
      · simpa [Requests.pop, h] using ih

theorem Requests.wf_pop (t : Requests) (x : Int) (h : t.wf) : (t.pop x).2.wf := by
  exact List.Nodup.sublist (Requests.keys_pop_sublist t x) h

theorem Requests.lookupList_pop (t : Requests) (x x' : Int) (h : t.wf) :
    (t.pop x).2.lookupList x' = if x' = x then [] else t.lookupList x' := by
  induction t with
  | nil => simp [Requests.pop, Requests.lookupList]
  | cons e rest ih =>
      obtain ⟨x0, l0⟩ := e
      simp only [Requests.wf, List.map_cons, List.nodup_cons] at h
      by_cases h0 : x0 = x
      · by_cases h' : x' = x
        · have hnm : x ∉ List.map Prod.fst rest := by
            rw [← h0]; exact h.1
          simp [Requests.pop, h0, h', Requests.lookupList_eq_nil rest x hnm]
        · have hx0 : ¬x0 = x' := fun hh => h' (hh.symm.trans h0)
          have hxx' : ¬x = x' := h0 ▸ hx0
          simp [Requests.pop, Requests.lookupList, h0, h', hx0, hxx']
      · by_cases hx' : x0 = x'
        · have h'x : ¬x' = x := fun hh => h0 (hx'.trans hh)
          simp [Requests.pop, Requests.lookupList, h0, hx', h'x]
        · simp [Requests.pop, Requests.lookupList, h0, hx', ih h.2]

theorem ClientTable.wf_cons {c0 : String} {r0 : Requests} {rest : ClientTable} :
    ClientTable.wf ((c0, r0) :: rest) ↔
      c0 ∉ rest.map Prod.fst ∧ Requests.wf r0 ∧ ClientTable.wf rest := by
  simp only [ClientTable.wf, List.map_cons, List.nodup_cons,
    List.forall_mem_cons]
  tauto

theorem ClientTable.lookupList_addClient (t : ClientTable) (r : Msg) (c : String)
    (x : Int) :
    (t.add r).lookupList c x =
      if c = r.client ∧ x = r.xid then t.lookupList c x ++ [r]
      else t.lookupList c x := by
  induction t with
  | nil =>
      by_cases hc : c = r.client
      · subst hc
        by_cases hx : x = r.xid
        · subst hx
          simp [ClientTable.add, ClientTable.lookupList, Requests.add,
            Requests.lookupList]
        · have hxr : ¬r.xid = x := fun hh => hx hh.symm
          simp [ClientTable.add, ClientTable.lookupList, Requests.add,
            Requests.lookupList, hx, hxr]
      · have hrc : ¬r.client = c := fun hh => hc hh.symm
        simp [ClientTable.add, ClientTable.lookupList, hc, hrc]
  | cons e rest ih =>
      obtain ⟨c0, r0⟩ := e
      by_cases h0 : c0 = r.client
      · by_cases hc : c0 = c
        · have hcr : c = r.client := hc.symm.trans h0
          by_cases hx : x = r.xid
          · simp [ClientTable.add, ClientTable.lookupList, h0, hc, hcr, hx,
              Requests.lookupList_add]
          · simp [ClientTable.add, ClientTable.lookupList, h0, hc, hcr, hx,
              Requests.lookupList_add]
        · have hcr : ¬c = r.client := fun hh => hc (h0.trans hh.symm)
          have hrc : ¬r.client = c := fun hh => hcr hh.symm
          simp [ClientTable.add, ClientTable.lookupList, h0, hc, hcr, hrc]
      · by_cases hc : c0 = c
        · have hcr : ¬c = r.client := fun hh => h0 (hc.trans hh)
          simp [ClientTable.add, ClientTable.lookupList, h0, hc, hcr]
        · simp [ClientTable.add, ClientTable.lookupList, h0, hc, ih]

theorem ClientTable.popClient_fst (t : ClientTable) (c : String) (x : Int) :
    (t.pop c x).1 = t.lookupList c x := by
  induction t with
  | nil => simp [ClientTable.pop, ClientTable.lookupList]
  | cons e rest ih =>
      obtain ⟨c0, r0⟩ := e
      by_cases h : c0 = c
      · simp [ClientTable.pop, ClientTable.lookupList, h, Requests.pop_fst]
      · simp [ClientTable.pop, ClientTable.lookupList, h, ih]

theorem ClientTable.lookupList_of_not_mem (t : ClientTable) (c : String)
    (x : Int) (h : c ∉ t.map Prod.fst) : t.lookupList c x = [] := by
  induction t with
  | nil => simp [ClientTable.lookupList]
  | cons e rest ih =>
      obtain ⟨c0, r0⟩ := e
      simp only [List.map_cons, List.mem_cons] at h
      push_neg at h
      have h1 : ¬c0 = c := fun hh => h.1 hh.symm
      simp [ClientTable.lookupList, h1, ih h.2]

theorem ClientTable.keys_addClient_subset (t : ClientTable) (r : Msg) (y : String)
    (h : y ∈ (t.add r).map Prod.fst) : y ∈ t.map Prod.fst ∨ y = r.client := by
  induction t with
  | nil =>
      simp [ClientTable.add] at h
      exact Or.inr h
  | cons e rest ih =>
      obtain ⟨c0, r0⟩ := e
      by_cases h0 : c0 = r.client
      · simp only [ClientTable.add, if_pos h0, List.map_cons, List.mem_cons] at h
        exact Or.inl (by simpa using h)
      · simp only [ClientTable.add, if_neg h0, List.map_cons, List.mem_cons] at h
        rcases h with h | h
        · exact Or.inl (by simp [h])
        · rcases ih h with h1 | h1
          · exact Or.inl (by simp [h1])
          · exact Or.inr h1

theorem ClientTable.wf_addClient (t : ClientTable) (r : Msg) (h : t.wf) :
    (t.add r).wf := by
  induction t with
  | nil =>
      simp [ClientTable.add, ClientTable.wf, Requests.wf, Requests.add]
  | cons e rest ih =>
      obtain ⟨c0, r0⟩ := e
      rw [ClientTable.wf_cons] at h
      by_cases h0 : c0 = r.client
      · simp only [ClientTable.add, if_pos h0]
        rw [ClientTable.wf_cons]
        exact ⟨h.1, Requests.wf_add r0 r h.2.1, h.2.2⟩
      · simp only [ClientTable.add, if_neg h0]
        rw [ClientTable.wf_cons]
        refine ⟨?_, h.2.1, ih h.2.2⟩
        intro hmem
        rcases ClientTable.keys_addClient_subset rest r c0 hmem with h1 | h1
        · exact h.1 h1
        · exact h0 h1

theorem ClientTable.keys_pop_subset (t : ClientTable) (c : String) (x : Int)
    (y : String) (h : y ∈ (t.pop c x).2.map Prod.fst) :
    y ∈ t.map Prod.fst ∨ y = c := by
  induction t with
  | nil =>
      simp [ClientTable.pop] at h
      exact Or.inr h
  | cons e rest ih =>
      obtain ⟨c0, r0⟩ := e
      by_cases h0 : c0 = c
      · simp only [ClientTable.pop, if_pos h0, List.map_cons, List.mem_cons] at h
        exact Or.inl (by simpa using h)
      · simp only [ClientTable.pop, if_neg h0, List.map_cons, List.mem_cons] at h
        rcases h with h | h
        · exact Or.inl (by simp [h])
        · rcases ih h with h1 | h1
          · exact Or.inl (by simp [h1])
          · exact Or.inr h1

theorem ClientTable.wf_popClient (t : ClientTable) (c : String) (x : Int)
    (h : t.wf) : (t.pop c x).2.wf := by
  induction t with
  | nil =>
      simp [ClientTable.pop, ClientTable.wf, Requests.wf]
  | cons e rest ih =>
      obtain ⟨c0, r0⟩ := e
      rw [ClientTable.wf_cons] at h
      by_cases h0 : c0 = c
      · simp only [ClientTable.pop, if_pos h0]
        rw [ClientTable.wf_cons]
        exact ⟨h.1, Requests.wf_pop r0 x h.2.1, h.2.2⟩
      · simp only [ClientTable.pop, if_neg h0]
        rw [ClientTable.wf_cons]
        refine ⟨?_, h.2.1, ih h.2.2⟩
        intro hmem
        rcases ClientTable.keys_pop_subset rest c x c0 hmem with h1 | h1
        · exact h.1 h1
        · exact h0 h1

theorem ClientTable.lookupList_popClient (t : ClientTable) (c c' : String)
    (x x' : Int) (h : t.wf) :
    (t.pop c x).2.lookupList c' x' =
      if c' = c ∧ x' = x then [] else t.lookupList c' x' := by
  induction t with
  | nil =>
      simp only [ClientTable.pop, ClientTable.lookupList]
      by_cases hc : c = c' <;> by_cases hx : x' = x <;>
        simp [Requests.lookupList, hc, hx]
  | cons e rest ih =>
      obtain ⟨c0, r0⟩ := e
      rw [ClientTable.wf_cons] at h
      by_cases h0 : c0 = c
      · by_cases hc' : c0 = c'
        · have hcc : c' = c := hc'.symm.trans h0
          subst hcc
          by_cases hx : x' = x
          · subst hx
            simp [ClientTable.pop, ClientTable.lookupList, h0, hc',
              Requests.lookupList_pop r0 x' x' h.2.1]
          · simp [ClientTable.pop, ClientTable.lookupList, h0, hc', hx,
              Requests.lookupList_pop r0 x x' h.2.1]
        · have hcc : ¬c' = c := fun hh => hc' (h0.trans hh.symm)
          have hcc' : ¬c = c' := fun hh => hcc hh.symm
          simp [ClientTable.pop, ClientTable.lookupList, h0, hc', hcc, hcc']
      · by_cases hc' : c0 = c'
        · have hcc : ¬c' = c := fun hh => h0 (hc'.trans hh)
          simp [ClientTable.pop, ClientTable.lookupList, h0, hc', hcc]
        · simp [ClientTable.pop, ClientTable.lookupList, h0, hc', ih h.2.2]

/-- The nested pending table simulates a flat list of buffered requests:
every lookup agrees with filtering that list by (client, xid). -/
def Sim (t : ClientTable) (pending : List Msg) : Prop :=
  ∀ c x, t.lookupList c x = pending.filter (hasKey c x)

theorem Sim.nil : Sim [] [] := by
  intro c x
  simp [ClientTable.lookupList]

theorem filter_key_erase (pending : List Msg) (c c' : String) (x x' : Int) :
    (pending.filter (fun m => !(hasKey c x m))).filter (hasKey c' x') =
      if c' = c ∧ x' = x then [] else pending.filter (hasKey c' x') := by
  rw [List.filter_filter]
  by_cases h : c' = c ∧ x' = x
  · obtain ⟨h1, h2⟩ := h
    subst h1
    subst h2
    simp
  · rw [if_neg h]
    apply List.filter_congr
    intro m _
    by_cases hk : hasKey c' x' m = true
    · have hne : hasKey c x m = false := by
        rw [Bool.eq_false_iff]
        intro hcx
        simp only [hasKey, Bool.and_eq_true, beq_iff_eq] at hk hcx
        exact h ⟨hk.1.symm.trans hcx.1, hk.2.symm.trans hcx.2⟩
      simp [hk, hne]
    · have hk' : hasKey c' x' m = false := Bool.eq_false_iff.mpr hk
      simp [hk']

theorem Sim.addReq {t : ClientTable} {pending : List Msg} (h : Sim t pending)
    (r : Msg) : Sim (t.add r) (pending ++ [r]) := by
  intro c x
  rw [ClientTable.lookupList_addClient, List.filter_append, h c x]
  by_cases hc : c = r.client ∧ x = r.xid
  · obtain ⟨h1, h2⟩ := hc
    subst h1
    subst h2
    simp [hasKey]
  · rw [if_neg hc]
    have hf : hasKey c x r = false := by
      rw [Bool.eq_false_iff]
      intro htrue
      simp only [hasKey, Bool.and_eq_true, beq_iff_eq] at htrue
      exact hc ⟨htrue.1.symm, htrue.2.symm⟩
    simp [hf]

theorem Sim.popFst {t : ClientTable} {pending : List Msg} (h : Sim t pending)
    (c : String) (x : Int) :
    (t.pop c x).1 = pending.filter (hasKey c x) := by
  rw [ClientTable.popClient_fst, h]

theorem Sim.pop_snd {t : ClientTable} {pending : List Msg} (hwf : t.wf)
    (h : Sim t pending) (c : String) (x : Int) :
    Sim (t.pop c x).2 (pending.filter (fun m => !(hasKey c x m))) := by
  intro c' x'
  rw [ClientTable.lookupList_popClient t c c' x x' hwf, h c' x', filter_key_erase]

/-- The group written for one matched reply: `reqs[0:1] + [rep]` on a
loopback interface, `reqs + [rep]` otherwise. -/
def emitGroup (loopback : Bool) (reqs : List Msg) (rep : Msg) : List Msg :=
  (if loopback then reqs.take 1 else reqs) ++ [rep]

theorem runSteps_out (reps : List Msg) (lb : Bool) (t : ClientTable)
    (o : List (List Msg)) (pending : List Msg)
    (hwf : t.wf) (hsim : Sim t pending)
    (hnd : (reps.map (fun m => (m.client, m.xid))).Nodup)
    (hmatch : ∀ rp ∈ reps, pending.filter (hasKey rp.client rp.xid) ≠ []) :
    (reps.foldl DefaultPrinter.runStep
        { loopback := lb, requests_by_client := t, replies := [], out := o }).out =
      o ++ reps.map (fun rp =>
        emitGroup lb (pending.filter (hasKey rp.client rp.xid)) rp) := by
  induction reps generalizing t o pending with
  | nil => simp
  | cons rp rest ih =>
      have hfst : (t.pop rp.client rp.xid).1 =
          pending.filter (hasKey rp.client rp.xid) :=
        Sim.popFst hsim rp.client rp.xid
      have hne := hmatch rp (List.mem_cons_self rp rest)
      have hstep : DefaultPrinter.runStep
          { loopback := lb, requests_by_client := t, replies := [], out := o } rp =
          { loopback := lb, requests_by_client := (t.pop rp.client rp.xid).2,
            replies := [],
            out := o ++
              [emitGroup lb (pending.filter (hasKey rp.client rp.xid)) rp] } := by
        simp only [DefaultPrinter.runStep, emitGroup]
        rw [hfst, if_neg hne]
      simp only [List.map_cons, List.nodup_cons, List.mem_map] at hnd
      have hkey : ∀ rp' ∈ rest,
          ¬(rp'.client = rp.client ∧ rp'.xid = rp.xid) := by
        intro rp' hmem hcon
        exact hnd.1 ⟨rp', hmem, by simp [hcon.1, hcon.2]⟩
      have hpend' : ∀ rp' ∈ rest,
          (pending.filter (fun m => !(hasKey rp.client rp.xid m))).filter
              (hasKey rp'.client rp'.xid) =
            pending.filter (hasKey rp'.client rp'.xid) := by
        intro rp' hmem
        rw [filter_key_erase, if_neg (hkey rp' hmem)]
      have hmatch' : ∀ rp' ∈ rest,
          (pending.filter (fun m => !(hasKey rp.client rp.xid m))).filter
              (hasKey rp'.client rp'.xid) ≠ [] := by
        intro rp' hmem
        rw [hpend' rp' hmem]
        exact hmatch rp' (List.mem_cons_of_mem rp hmem)
      have hrec := ih (t.pop rp.client rp.xid).2
        (o ++ [emitGroup lb (pending.filter (hasKey rp.client rp.xid)) rp])
        (pending.filter (fun m => !(hasKey rp.client rp.xid m)))
        (ClientTable.wf_popClient t rp.client rp.xid hwf)
        (Sim.pop_snd hwf hsim rp.client rp.xid)
        hnd.2 hmatch'
      rw [List.foldl_cons, hstep, hrec]
      rw [List.map_congr_left (fun rp' hmem => by rw [hpend' rp' hmem])]
      simp

theorem handleAll_req_map (p : DefaultPrinter) (reqs : List Msg)
    (h : ∀ m ∈ reqs, m.opcode ≠ OpCodes.CLOSE) :
    p.handleAll (reqs.map Cb.req) =
      { p with
          requests_by_client := reqs.foldl ClientTable.add p.requests_by_client } := by
  induction reqs generalizing p with
  | nil => simp [DefaultPrinter.handleAll]
  | cons r rest ih =>
      simp only [List.map_cons, DefaultPrinter.handleAll, List.foldl_cons]
      have hr := h r (List.mem_cons_self r rest)
      have hh : DefaultPrinter.handle p (Cb.req r) =
          { p with requests_by_client := p.requests_by_client.add r } := by
        simp [DefaultPrinter.handle, DefaultPrinter.request_handler, hr]
      rw [hh]
      exact ih _ (fun m hm => h m (List.mem_cons_of_mem r hm))

theorem handleAll_rep_map (p : DefaultPrinter) (reps : List Msg) :
    p.handleAll (reps.map Cb.rep) = { p with replies := p.replies ++ reps } := by
  induction reps generalizing p with
  | nil => simp [DefaultPrinter.handleAll]
  | cons r rest ih =>
      simp only [List.map_cons, DefaultPrinter.handleAll, List.foldl_cons]
      have hh : DefaultPrinter.handle p (Cb.rep r) =
          { p with replies := p.replies ++ [r] } := rfl
      rw [hh]
      have hrest := ih { p with replies := p.replies ++ [r] }
      simp only [DefaultPrinter.handleAll] at hrest
      rw [hrest]
      simp

theorem foldl_add_wf_sim (reqs : List Msg) (t : ClientTable)
    (pending : List Msg) (hwf : t.wf) (hsim : Sim t pending) :
    (reqs.foldl ClientTable.add t).wf ∧
      Sim (reqs.foldl ClientTable.add t) (pending ++ reqs) := by
  induction reqs generalizing t pending with
  | nil => simpa using ⟨hwf, hsim⟩
  | cons r rest ih =>
      have hr := ih (t.add r) (pending ++ [r]) (ClientTable.wf_addClient t r hwf)
        (hsim.addReq r)
      simpa using hr

theorem filter_hasKey_ne_nil {reqs : List Msg} {rq : Msg} (hm : rq ∈ reqs)
    (c : String) (x : Int) (hc : rq.client = c) (hx : rq.xid = x) :
    reqs.filter (hasKey c x) ≠ [] := by
  intro hnil
  rw [List.filter_eq_nil_iff] at hnil
  exact hnil rq hm (by simp [hasKey, hc, hx])

/-- C1: for every callback sequence of non-close requests with pairwise
distinct (client, xid) keys followed by their matching replies (the
reply keys are a permutation of the request keys), the Paired engine
with loopback dedupe disabled emits exactly one group per (client, xid)
pair: the buffered request(s) of that pair followed by the reply, with
one group per reply in reply-arrival order. -/
theorem zk_C1_paired_unique_groups (reqs reps : List Msg)
    (hclose : ∀ m ∈ reqs, m.opcode ≠ OpCodes.CLOSE)
    (hnd : (reqs.map (fun m => (m.client, m.xid))).Nodup)
    (hperm : (reps.map (fun m => (m.client, m.xid))).Perm
      (reqs.map (fun m => (m.client, m.xid)))) :
    (((DefaultPrinter.init false).handleAll
        (reqs.map Cb.req ++ reps.map Cb.rep)).runAll).out =
      reps.map (fun rp => reqs.filter (hasKey rp.client rp.xid) ++ [rp]) := by
  have hmatch : ∀ rp ∈ reps, reqs.filter (hasKey rp.client rp.xid) ≠ [] := by
    intro rp hmem
    have hkmem : (rp.client, rp.xid) ∈ reqs.map (fun m => (m.client, m.xid)) :=
      hperm.subset (List.mem_map.mpr ⟨rp, hmem, rfl⟩)
    obtain ⟨rq, hrq, heq⟩ := List.mem_map.mp hkmem
    rw [Prod.mk.injEq] at heq
    exact filter_hasKey_ne_nil hrq rp.client rp.xid heq.1 heq.2
  have h1 : (DefaultPrinter.init false).handleAll
      (reqs.map Cb.req ++ reps.map Cb.rep) =
      ((DefaultPrinter.init false).handleAll (reqs.map Cb.req)).handleAll
        (reps.map Cb.rep) := by
    simp [DefaultPrinter.handleAll, List.foldl_append]
  rw [h1, handleAll_req_map _ _ hclose, handleAll_rep_map]
  obtain ⟨hwfT, hsimT⟩ := foldl_add_wf_sim reqs [] []
    (by constructor <;> simp [ClientTable.wf]) Sim.nil
  have hsimT' : Sim (reqs.foldl ClientTable.add []) reqs := by
    simpa using hsimT
  rw [DefaultPrinter.runAll]
  have hout := runSteps_out reps false (reqs.foldl ClientTable.add []) [] reqs
    hwfT hsimT' (hperm.nodup_iff.mpr hnd) hmatch
  simp only [DefaultPrinter.init] at hout ⊢
  simp only [List.nil_append] at hout ⊢
  rw [hout]
  simp [emitGroup]

theorem runStep_out_match (p : DefaultPrinter) (rep : Msg)
    (hne : p.requests_by_client.lookupList rep.client rep.xid ≠ []) :
    (p.runStep rep).out = p.out ++
        [(if p.loopback then
            (p.requests_by_client.lookupList rep.client rep.xid).take 1
          else p.requests_by_client.lookupList rep.client rep.xid) ++ [rep]] ∧
      (p.runStep rep).requests_by_client =
        (p.requests_by_client.pop rep.client rep.xid).2 := by
  have hfst : (p.requests_by_client.pop rep.client rep.xid).1 =
      p.requests_by_client.lookupList rep.client rep.xid :=
    ClientTable.popClient_fst _ _ _
  simp only [DefaultPrinter.runStep]
  rw [hfst, if_neg hne]
  exact ⟨rfl, rfl⟩

theorem runStep_drop (p : DefaultPrinter) (rep : Msg)
    (hnil : p.requests_by_client.lookupList rep.client rep.xid = []) :
    (p.runStep rep).out = p.out ∧
      (p.runStep rep).requests_by_client =
        (p.requests_by_client.pop rep.client rep.xid).2 := by
  have hfst : (p.requests_by_client.pop rep.client rep.xid).1 =
      p.requests_by_client.lookupList rep.client rep.xid :=
    ClientTable.popClient_fst _ _ _
  simp only [DefaultPrinter.runStep]
  rw [hfst, hnil]
  simp

theorem LatencyPrinter.report_report (q : LatencyPrinter) :
    q.report.report = q.report := by
  by_cases h : q.report_done <;> simp [LatencyPrinter.report, h]

theorem LatencyPrinter.report_out_of_not_done (q : LatencyPrinter)
    (h : q.report_done = false) :
    q.report.out = q.out ++ [q.summaryTable] := by
  simp [LatencyPrinter.report, h]

theorem LatencyPrinter.report_of_done (q : LatencyPrinter)
    (h : q.report_done = true) : q.report = q := by
  simp [LatencyPrinter.report, h]

/-- Every request buffered in the pending table is a non-close
request. -/
def PendingNonClose (t : ClientTable) : Prop :=
  ∀ c x m, m ∈ t.lookupList c x → m.opcode ≠ OpCodes.CLOSE

theorem PendingNonClose.addNonClose {t : ClientTable} (h : PendingNonClose t)
    {r : Msg} (hr : r.opcode ≠ OpCodes.CLOSE) : PendingNonClose (t.add r) := by
  intro c x m hm
  rw [ClientTable.lookupList_addClient] at hm
  by_cases hc : c = r.client ∧ x = r.xid
  · rw [if_pos hc] at hm
    rcases List.mem_append.mp hm with hm | hm
    · exact h c x m hm
    · rw [List.mem_singleton] at hm
      exact hm ▸ hr
  · rw [if_neg hc] at hm
    exact h c x m hm

theorem PendingNonClose.pop {t : ClientTable} (hwf : t.wf)
    (h : PendingNonClose t) (c0 : String) (x0 : Int) :
    PendingNonClose (t.pop c0 x0).2 := by
  intro c x m hm
  rw [ClientTable.lookupList_popClient t c0 c x0 x hwf] at hm
  by_cases hc : c = c0 ∧ x = x0
  · rw [if_pos hc] at hm
    simp at hm
  · rw [if_neg hc] at hm
    exact h c x m hm

/-- Every group written so far has no close message before its last
element (immediately-written singletons have an empty `dropLast`). -/
def OutSafe (o : List (List Msg)) : Prop :=
  ∀ g ∈ o, ∀ m ∈ g.dropLast, m.opcode ≠ OpCodes.CLOSE

theorem OutSafe.append {o : List (List Msg)} (h : OutSafe o) {g : List Msg}
    (hg : ∀ m ∈ g.dropLast, m.opcode ≠ OpCodes.CLOSE) : OutSafe (o ++ [g]) := by
  intro g' hg'
  rcases List.mem_append.mp hg' with h' | h'
  · exact h g' h'
  · rw [List.mem_singleton] at h'
    exact h' ▸ hg

/-- The combined invariant of the Paired engine: a well-formed table
holding only non-close requests, and only safe groups written. -/
def DPInv (p : DefaultPrinter) : Prop :=
  p.requests_by_client.wf ∧ PendingNonClose p.requests_by_client ∧
    OutSafe p.out

theorem DPInv.of_init (lb : Bool) : DPInv (DefaultPrinter.init lb) := by
  refine ⟨⟨List.nodup_nil, ?_⟩, ?_, ?_⟩
  · intro e he
    simp [DefaultPrinter.init] at he
  · intro c x m hm
    simp [DefaultPrinter.init, ClientTable.lookupList] at hm
  · intro g hg
    simp [DefaultPrinter.init] at hg

theorem DPInv.handle {p : DefaultPrinter} (h : DPInv p) (cb : Cb) :
    DPInv (p.handle cb) := by
  obtain ⟨hwf, hpnc, hout⟩ := h
  cases cb with
  | req m =>
      by_cases hc : m.opcode = OpCodes.CLOSE
      · simp only [DefaultPrinter.handle, DefaultPrinter.request_handler,
          if_pos hc]
        exact ⟨hwf, hpnc, hout.append (by simp)⟩
      · simp only [DefaultPrinter.handle, DefaultPrinter.request_handler,
          if_neg hc]
        exact ⟨ClientTable.wf_addClient _ _ hwf, hpnc.addNonClose hc, hout⟩
  | rep m => exact ⟨hwf, hpnc, hout⟩
  | evt m =>
      simp only [DefaultPrinter.handle, DefaultPrinter.event_handler]
      exact ⟨hwf, hpnc, hout.append (by simp)⟩

theorem DPInv.handleAll {p : DefaultPrinter} (h : DPInv p) (cbs : List Cb) :
    DPInv (p.handleAll cbs) := by
  induction cbs generalizing p with
  | nil => exact h
  | cons cb rest ih =>
      simp only [DefaultPrinter.handleAll, List.foldl_cons]
      exact ih (h.handle cb)

theorem DPInv.runStep {p : DefaultPrinter} (h : DPInv p) (rep : Msg) :
    DPInv (p.runStep rep) := by
  obtain ⟨hwf, hpnc, hout⟩ := h
  by_cases hne : p.requests_by_client.lookupList rep.client rep.xid = []
  · obtain ⟨ho, ht⟩ := runStep_drop p rep hne
    refine ⟨?_, ?_, ?_⟩
    · rw [ht]
      exact ClientTable.wf_popClient _ _ _ hwf
    · rw [ht]
      exact PendingNonClose.pop hwf hpnc _ _
    · rw [ho]
      exact hout
  · obtain ⟨ho, ht⟩ := runStep_out_match p rep hne
    refine ⟨?_, ?_, ?_⟩
    · rw [ht]
      exact ClientTable.wf_popClient _ _ _ hwf
    · rw [ht]
      exact PendingNonClose.pop hwf hpnc _ _
    · rw [ho]
      apply hout.append
      intro m hm
      rw [List.dropLast_concat] at hm
      have hmem : m ∈ p.requests_by_client.lookupList rep.client rep.xid := by
        by_cases hlb : p.loopback
        · rw [if_pos hlb] at hm
          exact List.mem_of_mem_take hm
        · rw [if_neg hlb] at hm
          exact hm
      exact hpnc _ _ m hmem

theorem DPInv.foldl_runStep {p : DefaultPrinter} (h : DPInv p)
    (reps : List Msg) : DPInv (reps.foldl DefaultPrinter.runStep p) := by
  induction reps generalizing p with
  | nil => exact h
  | cons r rest ih =>
      simp only [List.foldl_cons]
      exact ih (h.runStep r)

theorem DPInv.runAll {p : DefaultPrinter} (h : DPInv p) : DPInv p.runAll := by
  rw [DefaultPrinter.runAll]
  exact DPInv.foldl_runStep (p := { p with replies := [] }) h p.replies

instance (t : Requests) : Decidable t.wf := by
  unfold Requests.wf
  infer_instance

instance (t : ClientTable) : Decidable t.wf := by
  unfold ClientTable.wf
  infer_instance

/-- The messages the Count engine tallies (its `request_handler` and
`event_handler` call `_add`; `reply_handler` is a pass). -/
def Cb.qualifying : Cb → Bool
  | .req _ => true
  | .rep _ => false
  | .evt _ => true

theorem bumpTally_sum (t : List (String × Nat)) (k : String) :
    ((bumpTally t k).map Prod.snd).sum = (t.map Prod.snd).sum + 1 := by
  induction t with
  | nil => simp [bumpTally]
  | cons e rest ih =>
      obtain ⟨k0, n⟩ := e
      by_cases h : k0 = k
      · simp only [bumpTally, if_pos h, List.map_cons, List.sum_cons]
        omega
      · simp only [bumpTally, if_neg h, List.map_cons, List.sum_cons, ih]
        omega

theorem countPrinter_handleAll (cbs : List Cb) (p : CountPrinter)
    (hsum : (p.requests.map Prod.snd).sum = p.seen)
    (hle : p.seen ≤ p.count) :
    (p.handleAll cbs).seen =
        min (p.seen + (cbs.filter Cb.qualifying).length) p.count ∧
      ((p.handleAll cbs).requests.map Prod.snd).sum = (p.handleAll cbs).seen ∧
      (p.handleAll cbs).count = p.count ∧
      (p.handleAll cbs).out = p.out := by
  induction cbs generalizing p with
  | nil =>
      refine ⟨?_, hsum, rfl, rfl⟩
      show p.seen = min (p.seen + (List.filter Cb.qualifying []).length) p.count
      simp only [List.filter_nil, List.length_nil, Nat.add_zero]
      omega
  | cons cb rest ih =>
      have hcons : p.handleAll (cb :: rest) = (p.handle cb).handleAll rest := by
        simp [CountPrinter.handleAll]
      rw [hcons]
      cases cb with
      | rep m =>
          obtain ⟨h1, h2, h3, h4⟩ := ih p hsum hle
          refine ⟨?_, h2, h3, h4⟩
          rw [show (p.handle (Cb.rep m)) = p from rfl, h1]
          show min (p.seen + (List.filter Cb.qualifying rest).length) p.count =
            min (p.seen + (List.filter Cb.qualifying rest).length) p.count
          rfl
      | req m =>
          by_cases hfull : p.count ≤ p.seen
          · have hid : p.handle (Cb.req m) = p := by
              simp [CountPrinter.handle, CountPrinter._add, hfull]
            rw [hid]
            obtain ⟨h1, h2, h3, h4⟩ := ih p hsum hle
            refine ⟨?_, h2, h3, h4⟩
            rw [h1]
            show min (p.seen + (List.filter Cb.qualifying rest).length) p.count =
              min (p.seen + ((List.filter Cb.qualifying rest).length + 1)) p.count
            omega
          · have hadd : p.handle (Cb.req m) =
                { p with
                    requests := bumpTally p.requests
                      (key_of m p.group_by p.aggregation_depth),
                    seen := p.seen + 1 } := by
              simp [CountPrinter.handle, CountPrinter._add, hfull]
            rw [hadd]
            obtain ⟨h1, h2, h3, h4⟩ := ih
              { p with
                  requests := bumpTally p.requests
                    (key_of m p.group_by p.aggregation_depth),
                  seen := p.seen + 1 }
              (by
                show ((bumpTally p.requests
                  (key_of m p.group_by p.aggregation_depth)).map Prod.snd).sum =
                  p.seen + 1
                rw [bumpTally_sum, hsum])
              (by
                show p.seen + 1 ≤ p.count
                omega)
            refine ⟨?_, h2, h3, h4⟩
            rw [h1]
            show min (p.seen + 1 + (List.filter Cb.qualifying rest).length) p.count =
              min (p.seen + ((List.filter Cb.qualifying rest).length + 1)) p.count
            omega
      | evt m =>
          by_cases hfull : p.count ≤ p.seen
          · have hid : p.handle (Cb.evt m) = p := by
              simp [CountPrinter.handle, CountPrinter._add, hfull]
            rw [hid]
            obtain ⟨h1, h2, h3, h4⟩ := ih p hsum hle
            refine ⟨?_, h2, h3, h4⟩
            rw [h1]
            show min (p.seen + (List.filter Cb.qualifying rest).length) p.count =
              min (p.seen + ((List.filter Cb.qualifying rest).length + 1)) p.count
            omega
          · have hadd : p.handle (Cb.evt m) =
                { p with
                    requests := bumpTally p.requests
                      (key_of m p.group_by p.aggregation_depth),
                    seen := p.seen + 1 } := by
              simp [CountPrinter.handle, CountPrinter._add, hfull]
            rw [hadd]
            obtain ⟨h1, h2, h3, h4⟩ := ih
              { p with
                  requests := bumpTally p.requests
                    (key_of m p.group_by p.aggregation_depth),
                  seen := p.seen + 1 }
              (by
                show ((bumpTally p.requests
                  (key_of m p.group_by p.aggregation_depth)).map Prod.snd).sum =
                  p.seen + 1
                rw [bumpTally_sum, hsum])
              (by
                show p.seen + 1 ≤ p.count
                omega)
            refine ⟨?_, h2, h3, h4⟩
            rw [h1]
            show min (p.seen + 1 + (List.filter Cb.qualifying rest).length) p.count =
              min (p.seen + ((List.filter Cb.qualifying rest).length + 1)) p.count
            omega

theorem CountPrinter.summary_perm (p : CountPrinter) :
    p.summary.Perm p.requests :=
  List.mergeSort_perm p.requests _

theorem CountPrinter.summary_sorted (p : CountPrinter) :
    List.Pairwise (fun a b : String × Nat => b.2 ≤ a.2) p.summary := by
  have h := @List.sorted_mergeSort (String × Nat)
    (fun a b => decide (b.2 ≤ a.2))
    (fun a b c hab hbc => by
      simp only [decide_eq_true_eq] at hab hbc ⊢
      omega)
    (fun a b => by
      simp only [Bool.or_eq_true, decide_eq_true_eq]
      omega)
    p.requests
  exact h.imp (fun hab => by simpa using hab)

/-- A sample non-close request (xid 1). -/
def wReq1 : Msg :=
  { client := "127.0.0.1:45887", xid := 1, opcode := 4, timestamp := 1,
    path := "/a", name := "GetDataRequest" }

/-- A sample non-close request (xid 2). -/
def wReq2 : Msg :=
  { client := "127.0.0.1:45887", xid := 2, opcode := 4, timestamp := 2,
    path := "/b", name := "GetDataRequest" }

/-- The reply matching `wReq1`. -/
def wRep1 : Msg :=
  { client := "127.0.0.1:45887", xid := 1, opcode := 4, timestamp := 5,
    path := "/a", name := "GetDataReply" }

/-- The reply matching `wReq2`. -/
def wRep2 : Msg :=
  { client := "127.0.0.1:45887", xid := 2, opcode := 4, timestamp := 7,
    path := "/b", name := "GetDataReply" }

/-- A sample close request. -/
def wClose : Msg :=
  { client := "127.0.0.1:45887", xid := 9, opcode := OpCodes.CLOSE,
    timestamp := 9, path := "", name := "CloseRequest" }

/-- A sample watch event. -/
def wEvt : Msg :=
  { client := "127.0.0.1:45887", xid := -1, opcode := 0, timestamp := 3,
    path := "/a", name := "WatchEvent" }

/-- Concrete instantiation of the C1 theorem: two distinct requests,
replies arriving in swapped order; exactly one group per pair, each
request before its reply, groups in reply-arrival order. -/
theorem zk_C1_paired_unique_groups_witness :
    ((∀ m ∈ [wReq1, wReq2], m.opcode ≠ OpCodes.CLOSE) ∧
      ([wReq1, wReq2].map (fun m => (m.client, m.xid))).Nodup ∧
      ([wRep2, wRep1].map (fun m => (m.client, m.xid))).Perm
        ([wReq1, wReq2].map (fun m => (m.client, m.xid)))) ∧
    (((DefaultPrinter.init false).handleAll
        ([wReq1, wReq2].map Cb.req ++ [wRep2, wRep1].map Cb.rep)).runAll).out =
      [[wReq2, wRep2], [wReq1, wRep1]] := by
  refine ⟨⟨by decide, by decide, by decide⟩, ?_⟩
  rw [zk_C1_paired_unique_groups [wReq1, wReq2] [wRep2, wRep1]
    (by decide) (by decide) (by decide)]
  decide

/-- C2: when a reply matches a non-empty buffered list, the Paired
engine with loopback dedupe enabled writes `reqs[0:1] + [rep]` — only
the first buffered request — while with dedupe disabled it writes the
whole buffered list before the reply; in both modes the whole list is
consumed, so all later duplicates for that xid are gone from the
table. -/
theorem zk_C2_loopback_dedupe (p : DefaultPrinter) (rep : Msg)
    (hwf : p.requests_by_client.wf)
    (hne : p.requests_by_client.lookupList rep.client rep.xid ≠ []) :
    ((p.loopback = true →
        (p.runStep rep).out = p.out ++
          [(p.requests_by_client.lookupList rep.client rep.xid).take 1 ++ [rep]]) ∧
      (p.loopback = false →
        (p.runStep rep).out = p.out ++
          [p.requests_by_client.lookupList rep.client rep.xid ++ [rep]])) ∧
    (p.runStep rep).requests_by_client.lookupList rep.client rep.xid = [] := by
  obtain ⟨ho, ht⟩ := runStep_out_match p rep hne
  refine ⟨⟨?_, ?_⟩, ?_⟩
  · intro hlb
    rw [ho, hlb]
    simp
  · intro hlb
    rw [ho, hlb]
    simp
  · rw [ht, ClientTable.lookupList_popClient _ _ _ _ _ hwf]
    simp

/-- The Paired engine on the loopback with two duplicate buffered
requests for xid 1: the reply flushes exactly one request plus the
reply, and the duplicate is discarded. -/
def wDupPrinter : DefaultPrinter :=
  ((DefaultPrinter.init true).request_handler wReq1).request_handler wReq1

/-- Concrete instantiation of the C2 theorem on `wDupPrinter`. -/
theorem zk_C2_loopback_dedupe_witness :
    (wDupPrinter.requests_by_client.wf ∧
      wDupPrinter.requests_by_client.lookupList wRep1.client wRep1.xid ≠ []) ∧
    (wDupPrinter.runStep wRep1).out = [[wReq1, wRep1]] ∧
    (wDupPrinter.runStep wRep1).requests_by_client.lookupList
      wRep1.client wRep1.xid = [] := by
  have h := zk_C2_loopback_dedupe wDupPrinter wRep1 (by decide) (by decide)
  refine ⟨⟨by decide, by decide⟩, ?_, h.2⟩
  rw [h.1.1 (by decide)]
  decide

/-- C3: the Latency summary executes exactly once: `report` is
idempotent, `cancel` is exactly `report`, a first trigger on an
unreported engine appends exactly one summary table, and any trigger on
an already-reported engine changes nothing and emits nothing. -/
theorem zk_C3_report_exactly_once (q : LatencyPrinter) :
    (q.report.report = q.report ∧ q.report.cancel = q.report ∧
      q.cancel = q.report) ∧
    (q.report_done = false → q.report.out = q.out ++ [q.summaryTable]) ∧
    (q.report_done = true → q.report = q) := by
  refine ⟨⟨q.report_report, ?_, rfl⟩, ?_, ?_⟩
  · show q.report.report = q.report
    exact q.report_report
  · intro h
    exact q.report_out_of_not_done h
  · intro h
    exact q.report_of_done h

/-- A fresh Latency engine used by the concrete witnesses. -/
def wLat : LatencyPrinter :=
  LatencyPrinter.init 5 GroupBy.path false 0 SortBy.avg

/-- Concrete instantiation of the C3 theorem on `wLat`. -/
theorem zk_C3_report_exactly_once_witness :
    wLat.report_done = false ∧
    wLat.report.report = wLat.report ∧
    wLat.report.out = wLat.out ++ [wLat.summaryTable] := by
  have h := zk_C3_report_exactly_once wLat
  exact ⟨by decide, h.1.1, h.2.1 (by decide)⟩

/-- An interrupted Count engine: one request tallied, target 5 not
reached. -/
def wCount : CountPrinter :=
  (CountPrinter.init 5 GroupBy.path false 0)._add wReq1

/-- C4 counterexample: `CountPrinter` inherits `BasePrinter.cancel`,
which is a pass; cancelling an interrupted Count run leaves the engine
unchanged and prints no summary, contradicting the claim that both
summarizing engines flush their summary on `cancel()`. -/
theorem zk_C4_count_cancel_noop_counterexample :
    wCount.seen < wCount.count ∧ wCount.requests ≠ [] ∧
    wCount.cancel = wCount ∧ wCount.cancel.out = [] := by
  exact ⟨by decide, by decide, rfl, by decide⟩

/-- C4 (amended): cancelling an interrupted Latency engine flushes the
summary exactly once (and is idempotent); the Count engine's `cancel` is
the inherited base-class pass, so its summary is printed only by `run`
once the sample target has been reached. -/
theorem zk_C4_cancel_flush_amended (q : LatencyPrinter) (cp : CountPrinter) :
    (q.report_done = false → q.cancel.out = q.out ++ [q.summaryTable]) ∧
    q.cancel.cancel = q.cancel ∧
    cp.cancel = cp ∧
    (cp.count ≤ cp.seen → cp.runReport.out = cp.out ++ cp.summary) := by
  refine ⟨?_, ?_, rfl, ?_⟩
  · intro h
    exact q.report_out_of_not_done h
  · show q.report.report = q.report
    exact q.report_report
  · intro _
    rfl

/-- A Count engine that has reached its target of 2 samples. -/
def wCountDone : CountPrinter :=
  (CountPrinter.init 2 GroupBy.path false 0).handleAll
    [Cb.req wReq1, Cb.req wReq1, Cb.req wReq2]

/-- Concrete instantiation of the C4 amended theorem. -/
theorem zk_C4_cancel_flush_amended_witness :
    (wLat.report_done = false ∧ wCountDone.count ≤ wCountDone.seen) ∧
    wLat.cancel.out = wLat.out ++ [wLat.summaryTable] ∧
    wLat.cancel.cancel = wLat.cancel ∧
    wCountDone.cancel = wCountDone ∧
    wCountDone.runReport.out = wCountDone.out ++ wCountDone.summary := by
  have h := zk_C4_cancel_flush_amended wLat wCountDone
  exact ⟨⟨by decide, by decide⟩, h.1 (by decide), h.2.1, h.2.2.1,
    h.2.2.2 (by decide)⟩

/-- C5: a close request is never inserted into the pending table: the
Paired engine writes it immediately and leaves the table untouched, the
Latency engine ignores it entirely, and — for any capture callback
sequence processed from a fresh Paired engine — no written group ever
contains a close request before its final element (pairs are
`reqs + [rep]`, so their `dropLast` is the buffered part). -/
theorem zk_C5_close_never_buffered (lb : Bool) (req : Msg)
    (p : DefaultPrinter) (q : LatencyPrinter) (cbs : List Cb)
    (hc : req.opcode = OpCodes.CLOSE) :
    (p.request_handler req).requests_by_client = p.requests_by_client ∧
    (p.request_handler req).out = p.out ++ [[req]] ∧
    q.request_handler req = q ∧
    (∀ g ∈ (((DefaultPrinter.init lb).handleAll cbs).runAll).out,
      ∀ m ∈ g.dropLast, m.opcode ≠ OpCodes.CLOSE) := by
  refine ⟨?_, ?_, ?_, ?_⟩
  · simp [DefaultPrinter.request_handler, hc]
  · simp [DefaultPrinter.request_handler, hc]
  · simp [LatencyPrinter.request_handler, hc]
  · have hinv : DPInv ((((DefaultPrinter.init lb).handleAll cbs)).runAll) :=
      ((DPInv.of_init lb).handleAll cbs).runAll
    exact hinv.2.2

/-- Concrete instantiation of the C5 theorem: a close request among
buffered traffic; the close is written alone and no pair contains it. -/
theorem zk_C5_close_never_buffered_witness :
    wClose.opcode = OpCodes.CLOSE ∧
    ((DefaultPrinter.init false).request_handler wClose).requests_by_client
      = (DefaultPrinter.init false).requests_by_client ∧
    ((DefaultPrinter.init false).request_handler wClose).out = [[wClose]] ∧
    wLat.request_handler wClose = wLat ∧
    (∀ g ∈ (((DefaultPrinter.init false).handleAll
        [Cb.req wReq1, Cb.req wClose, Cb.rep wRep1]).runAll).out,
      ∀ m ∈ g.dropLast, m.opcode ≠ OpCodes.CLOSE) := by
  have h := zk_C5_close_never_buffered false wClose (DefaultPrinter.init false)
    wLat [Cb.req wReq1, Cb.req wClose, Cb.rep wRep1] (by decide)
  refine ⟨by decide, h.1, ?_, h.2.2.1, h.2.2.2⟩
  rw [h.2.1]
  decide

/-- C6: a reply whose (client, xid) has no buffered request is silently
dropped by both background loops: the Paired engine writes nothing and
the Latency engine leaves its matched-pair count and latency samples
unchanged. -/
theorem zk_C6_unmatched_reply_dropped (p : DefaultPrinter)
    (q : LatencyPrinter) (rep : Msg)
    (hp : p.requests_by_client.lookupList rep.client rep.xid = [])
    (hq : q.requests_by_client.lookupList rep.client rep.xid = []) :
    (p.runStep rep).out = p.out ∧
    (q.waitStep rep).out = q.out ∧
    (q.waitStep rep).seen = q.seen ∧
    (q.waitStep rep).latencies_by_group = q.latencies_by_group := by
  have hp1 : (p.requests_by_client.pop rep.client rep.xid).1 = [] := by
    rw [ClientTable.popClient_fst]
    exact hp
  have hq1 : (q.requests_by_client.pop rep.client rep.xid).1 = [] := by
    rw [ClientTable.popClient_fst]
    exact hq
  refine ⟨(runStep_drop p rep hp).1, ?_, ?_, ?_⟩ <;>
    simp [LatencyPrinter.waitStep, hq1]

/-- Concrete instantiation of the C6 theorem: a reply into fresh
engines. -/
theorem zk_C6_unmatched_reply_dropped_witness :
    ((DefaultPrinter.init false).requests_by_client.lookupList
        wRep1.client wRep1.xid = [] ∧
      wLat.requests_by_client.lookupList wRep1.client wRep1.xid = []) ∧
    ((DefaultPrinter.init false).runStep wRep1).out =
      (DefaultPrinter.init false).out ∧
    (wLat.waitStep wRep1).out = wLat.out ∧
    (wLat.waitStep wRep1).seen = wLat.seen ∧
    (wLat.waitStep wRep1).latencies_by_group = wLat.latencies_by_group := by
  have h := zk_C6_unmatched_reply_dropped (DefaultPrinter.init false) wLat
    wRep1 (by decide) (by decide)
  exact ⟨⟨by decide, by decide⟩, h.1, h.2.1, h.2.2.1, h.2.2.2⟩

/-- C7: on a well-formed table, `pop` returns the entire list stored at
the xid (empty when absent) and removes it whole: immediately after a
pop the key is absent, a second pop of the same xid returns the empty
sequence, and `add` — the only other mutator — never removes anything:
it only appends to the list at the request's own xid. -/
theorem zk_C7_pop_removes_whole_list (t : Requests) (xid : Int)
    (h : t.wf) :
    (t.pop xid).1 = t.lookupList xid ∧
    (t.pop xid).2.lookupList xid = [] ∧
    ((t.pop xid).2.pop xid).1 = [] ∧
    (∀ r : Msg, ∀ x : Int,
      (t.add r).lookupList x =
        if x = r.xid then t.lookupList x ++ [r] else t.lookupList x) := by
  refine ⟨Requests.pop_fst t xid, ?_, ?_,
    fun r x => Requests.lookupList_add t r x⟩
  · rw [Requests.lookupList_pop t xid xid h]
    simp
  · rw [Requests.pop_fst, Requests.lookupList_pop t xid xid h]
    simp

/-- A two-key pending table used by the C7 witness. -/
def wTable : Requests := Requests.add (Requests.add [] wReq1) wReq2

/-- Concrete instantiation of the C7 theorem on a two-key table. -/
theorem zk_C7_pop_removes_whole_list_witness :
    wTable.wf ∧
    (wTable.pop 1).1 = [wReq1] ∧
    (wTable.pop 1).2.lookupList 1 = [] ∧
    ((wTable.pop 1).2.pop 1).1 = [] := by
  have h := zk_C7_pop_removes_whole_list wTable 1 (by decide)
  refine ⟨by decide, ?_, h.2.1, h.2.2.1⟩
  rw [h.1]
  decide

/-- C8: the Count engine with target N: given a callback stream with
exactly N qualifying messages (requests and watch events; replies
contribute nothing), the accepted count reaches N — so the polling loop
in `run` terminates — every further callback leaves the engine
unchanged, the summary tallies sum to N, and the summary rows are in
non-increasing tally order. -/
theorem zk_C8_count_engine (N : Nat) (gb : GroupBy) (d : Nat) (lb : Bool)
    (cbs : List Cb)
    (hq : (cbs.filter Cb.qualifying).length = N) :
    ((CountPrinter.init N gb lb d).handleAll cbs).seen = N ∧
    ((CountPrinter.init N gb lb d).handleAll cbs).count ≤
      ((CountPrinter.init N gb lb d).handleAll cbs).seen ∧
    (∀ cb : Cb, ((CountPrinter.init N gb lb d).handleAll cbs).handle cb =
      (CountPrinter.init N gb lb d).handleAll cbs) ∧
    ((((CountPrinter.init N gb lb d).handleAll cbs).summary).map Prod.snd).sum
      = N ∧
    List.Pairwise (fun a b : String × Nat => b.2 ≤ a.2)
      (((CountPrinter.init N gb lb d).handleAll cbs).summary) := by
  obtain ⟨h1, h2, h3, h4⟩ := countPrinter_handleAll cbs
    (CountPrinter.init N gb lb d) rfl (Nat.zero_le N)
  rw [hq] at h1
  have hseen : ((CountPrinter.init N gb lb d).handleAll cbs).seen = N := by
    rw [h1]
    show min (0 + N) N = N
    omega
  have hcount : ((CountPrinter.init N gb lb d).handleAll cbs).count = N := h3
  have hfull : ((CountPrinter.init N gb lb d).handleAll cbs).count ≤
      ((CountPrinter.init N gb lb d).handleAll cbs).seen := by
    rw [hcount, hseen]
  refine ⟨hseen, hfull, ?_, ?_, CountPrinter.summary_sorted _⟩
  · intro cb
    cases cb with
    | rep m => rfl
    | req m =>
        show ((CountPrinter.init N gb lb d).handleAll cbs)._add m = _
        rw [CountPrinter._add, if_pos hfull]
    | evt m =>
        show ((CountPrinter.init N gb lb d).handleAll cbs)._add m = _
        rw [CountPrinter._add, if_pos hfull]
  · have hperm :=
      (CountPrinter.summary_perm
        ((CountPrinter.init N gb lb d).handleAll cbs)).map Prod.snd
    rw [hperm.sum_eq, h2, hseen]

/-- Concrete instantiation of the C8 theorem: three qualifying messages
(two requests, one event) plus an ignored reply; the fourth request
arrives after the target and is ignored. -/
theorem zk_C8_count_engine_witness :
    (([Cb.req wReq1, Cb.rep wRep1, Cb.req wReq2, Cb.evt wEvt].filter
        Cb.qualifying).length = 3) ∧
    ((CountPrinter.init 3 GroupBy.path false 0).handleAll
      [Cb.req wReq1, Cb.rep wRep1, Cb.req wReq2, Cb.evt wEvt]).seen = 3 ∧
    (((CountPrinter.init 3 GroupBy.path false 0).handleAll
      [Cb.req wReq1, Cb.rep wRep1, Cb.req wReq2, Cb.evt wEvt]).handle
        (Cb.req wReq2) =
      (CountPrinter.init 3 GroupBy.path false 0).handleAll
        [Cb.req wReq1, Cb.rep wRep1, Cb.req wReq2, Cb.evt wEvt]) ∧
    ((((CountPrinter.init 3 GroupBy.path false 0).handleAll
      [Cb.req wReq1, Cb.rep wRep1, Cb.req wReq2, Cb.evt wEvt]).summary).map
        Prod.snd).sum = 3 ∧
    List.Pairwise (fun a b : String × Nat => b.2 ≤ a.2)
      (((CountPrinter.init 3 GroupBy.path false 0).handleAll
        [Cb.req wReq1, Cb.rep wRep1, Cb.req wReq2, Cb.evt wEvt]).summary) := by
  have h := zk_C8_count_engine 3 GroupBy.path 0 false
    [Cb.req wReq1, Cb.rep wRep1, Cb.req wReq2, Cb.evt wEvt] (by decide)
  exact ⟨by decide, h.1, h.2.2.1 (Cb.req wReq2), h.2.2.2.1, h.2.2.2.2⟩

/-- C9 (percentile modelled from the spec, §4.1): for latency samples
1..10 seconds in one group the report computes p95 = p99 = 10 — the
nearest-rank value at 1-indexed rank ⌈p·n⌉ clamped to [1, n], without
interpolation — and avg = 11/2 = 5.5, the sum divided by the count. -/
theorem zk_C9_latency_percentiles :
    percentile [1, 2, 3, 4, 5, 6, 7, 8, 9, 10] (95 / 100) = 10 ∧
    percentile [1, 2, 3, 4, 5, 6, 7, 8, 9, 10] (99 / 100) = 10 ∧
    groupResult [1, 2, 3, 4, 5, 6, 7, 8, 9, 10] = (11 / 2, 10, 10) := by
  have h95 : percentile [1, 2, 3, 4, 5, 6, 7, 8, 9, 10] (95 / 100) = 10 := by
    simp only [percentile]
    norm_num
    rw [show ⌈(19 : ℚ) / 2⌉₊ = 10 from by
      rw [Nat.ceil_eq_iff (by norm_num)]
      norm_num]
    norm_num
  have h99 : percentile [1, 2, 3, 4, 5, 6, 7, 8, 9, 10] (99 / 100) = 10 := by
    simp only [percentile]
    norm_num
    rw [show ⌈(99 : ℚ) / 10⌉₊ = 10 from by
      rw [Nat.ceil_eq_iff (by norm_num)]
      norm_num]
    norm_num
  refine ⟨h95, h99, ?_⟩
  have hsort : ([1, 2, 3, 4, 5, 6, 7, 8, 9, 10] : List ℚ).mergeSort
      (fun a b => decide (a ≤ b)) = [1, 2, 3, 4, 5, 6, 7, 8, 9, 10] :=
    List.mergeSort_eq_self (by decide)
  simp only [groupResult, hsort]
  rw [Prod.mk.injEq, Prod.mk.injEq]
  refine ⟨?_, h95, h99⟩
  norm_num

/-- C10: `main` enables loopback dedupe exactly for the interface names
"lo" and "lo0"; any other interface string (including "lo1" and "LO")
yields `loopback = false`, and a Paired engine with `loopback = false`
emits every buffered duplicate request before the reply. -/
theorem zk_C10_loopback_interface (iface : String) (p : DefaultPrinter)
    (rep : Msg) :
    (mainLoopback iface = true ↔ iface = "lo" ∨ iface = "lo0") ∧
    mainLoopback "lo1" = false ∧
    mainLoopback "LO" = false ∧
    (p.loopback = false →
      p.requests_by_client.lookupList rep.client rep.xid ≠ [] →
      (p.runStep rep).out = p.out ++
        [p.requests_by_client.lookupList rep.client rep.xid ++ [rep]]) := by
  refine ⟨?_, by decide, by decide, ?_⟩
  · simp [mainLoopback, List.contains_iff_exists_mem_beq]
  · intro hlb hne
    obtain ⟨ho, _⟩ := runStep_out_match p rep hne
    rw [ho, hlb]
    simp

/-- The Paired engine off the loopback with two duplicate buffered
requests for xid 1. -/
def wDupPrinterEth : DefaultPrinter :=
  ((DefaultPrinter.init (mainLoopback "eth0")).request_handler
    wReq1).request_handler wReq1

/-- Concrete instantiation of the C10 theorem: on iface "eth0" the
engine keeps `loopback = false` and flushes both duplicates. -/
theorem zk_C10_loopback_interface_witness :
    mainLoopback "eth0" = false ∧
    mainLoopback "lo" = true ∧
    mainLoopback "lo0" = true ∧
    (wDupPrinterEth.loopback = false ∧
      wDupPrinterEth.requests_by_client.lookupList wRep1.client wRep1.xid
        ≠ []) ∧
    (wDupPrinterEth.runStep wRep1).out = [[wReq1, wReq1, wRep1]] := by
  have h := zk_C10_loopback_interface "eth0" wDupPrinterEth wRep1
  refine ⟨by decide, by decide, by decide, ⟨by decide, by decide⟩, ?_⟩
  rw [h.2.2.2 (by decide) (by decide)]
  decide
